import Mathlib

/-!
Verification of `Challenge1A/process_pdfs.py`: a PDF outline extractor
built from a font-size style profiler (`get_font_styles`) and an outline
extractor (`extract_outline`), plus the per-file driver logic of `main`.

The PDF decoding engine (PyMuPDF) is out of scope: a document is modelled
as the data it delivers — pages of blocks of lines of spans, each span
carrying text, a raw font size (modelled as a rational, standing in for the
float), and a style-flag bitmask — plus an optional metadata title
(the empty string models a missing/falsy metadata title).
Python's `round` (round-half-to-even) is modelled exactly on rationals by
`pyRound`; `str.isalpha` / `str.isnumeric` character classes by
`Char.isAlpha` / `Char.isDigit`; `str.lower` by `pyLower` (lower-case
every character); `str.strip` by `pyStrip` (drop whitespace both ends).
-/

namespace PDFOutline

/-- One span from `page.get_text("dict")`: `{text, size, flags}`. -/
structure Span where
  text : String
  size : ℚ
  flags : Nat
deriving DecidableEq, Repr

/-- A line: an ordered list of spans. -/
structure Line where
  spans : List Span
deriving DecidableEq, Repr

/-- A block: `b["type"]` (0 = text block) and its lines. -/
structure Block where
  btype : Nat
  lines : List Line
deriving DecidableEq, Repr

/-- A page: an ordered list of blocks. -/
structure Page where
  blocks : List Block
deriving DecidableEq, Repr

/-- An opened document: its pages, and its metadata title (`""` models a
missing or falsy `doc.metadata.get('title')`). -/
structure Doc where
  pages : List Page
  metaTitle : String
deriving DecidableEq, Repr

/-- The text lines of a page, in reading order: the lines of every block
with `b["type"] == 0`, as walked by both loops of the Python code. -/
def pageLines (p : Page) : List Line :=
  (p.blocks.filter fun b => b.btype == 0).flatMap Block.lines

/-- All spans of a page's text lines, in order. -/
def pageSpans (p : Page) : List Span :=
  (pageLines p).flatMap Line.spans

/-- Python's `round` on the exact rational value: round half to even
(banker's rounding), implemented on numerator and denominator so that it
evaluates by kernel reduction. -/
def pyRound (q : ℚ) : ℤ :=
  let f := q.num.ediv q.den
  let r2 := 2 * (q.num - f * (q.den : ℤ))
  if r2 < (q.den : ℤ) then f
  else if (q.den : ℤ) < r2 then f + 1
  else if f % 2 = 0 then f else f + 1

/-- Python's `str.lower()`: lower-case every character. -/
def pyLower (s : String) : String :=
  String.mk (s.data.map Char.toLower)

/-- Python's `str.strip()`: drop whitespace characters from both ends. -/
def pyStrip (s : String) : String :=
  String.mk
    (((s.data.dropWhile Char.isWhitespace).reverse.dropWhile
        Char.isWhitespace).reverse)

/-! ## Style profiler: `get_font_styles` -/

/-- `defaultdict(int)` histogram, modelled as an association list in key
insertion order (insertion order matters: Python's stable sort by frequency
breaks ties by it). `font_counts[k] += n` inserts the key if absent. -/
def addCount (h : List (Int × Nat)) (k : Int) (n : Nat) : List (Int × Nat) :=
  if h.any fun p => p.1 == k then
    h.map fun p => if p.1 == k then (p.1, p.2 + n) else p
  else h ++ [(k, n)]

/-- One span's contribution to the histogram: lines 19-22 of the source.
`font_size = round(s["size"])`; only `font_size > 6` is counted, weighted
by `len(s["text"])`. -/
def addSpan (h : List (Int × Nat)) (s : Span) : List (Int × Nat) :=
  let fs := pyRound s.size
  if fs > 6 then addCount h fs s.text.length else h

/-- The spans sampled by the profiler: every span of every text block of
the first `min(20, len(doc))` pages (`doc.pages(0, page_limit)`). -/
def sampleSpans (d : Doc) : List Span :=
  ((d.pages.take (min 20 d.pages.length)).flatMap pageSpans)

/-- The profiler's font-size histogram `font_counts`. -/
def font_counts (d : Doc) : List (Int × Nat) :=
  (sampleSpans d).foldl addSpan []

/-- `sorted(font_counts.items(), key=count, reverse=True)[0][0]`: the key
with the greatest count, earliest-inserted first on ties (Python's sort is
stable). -/
def pickBody : List (Int × Nat) → Int
  | [] => 10
  | p :: ps => (ps.foldl (fun best q => if q.2 > best.2 then q else best) p).1

/-- `sorted(font_counts.keys(), reverse=True)`: insertion sort into
descending order (the keys are distinct, so stability is irrelevant). -/
def sortDesc (l : List Int) : List Int :=
  List.insertionSort (fun a b => b ≤ a) l

/-- The `while` loop of lines 42-43: advance `current_size_idx` while
`sorted_sizes[current_size_idx] <= prev`, where `prev` is the previously
assigned threshold (`body_size` for H1). The cursor into the immutable
list `sorted_sizes` is modelled by the remaining suffix of the list:
advancing the index by one is dropping the suffix's head. -/
def advanceCur (prev : Int) : List Int → List Int
  | [] => []
  | x :: xs => if x ≤ prev then advanceCur prev xs else x :: xs

/-- One iteration of the `for level in heading_levels` loop (lines 40-50):
skip candidates `<= prev`; if the cursor still points into the list, take
`sorted_sizes[current_size_idx]` and advance once more, otherwise assign
`prev + 1`. Returns the assigned threshold and the remaining cursor
suffix. -/
def assignLevel (prev : Int) (cur : List Int) : Int × List Int :=
  match advanceCur prev cur with
  | [] => (prev + 1, [])
  | x :: xs => (x, xs)

/-- The style profile: thresholds for H1..H4 and the body size. All five
keys are always present in the dict the Python code returns. -/
structure StyleProfile where
  H1 : Int
  H2 : Int
  H3 : Int
  H4 : Int
  body : Int
deriving DecidableEq, Repr

/-- `get_font_styles` (lines 6-52): histogram, fallback on empty histogram,
body = modal size, then the sequential threshold-assignment loop. -/
def get_font_styles (d : Doc) : StyleProfile :=
  let fc := font_counts d
  if fc.isEmpty then ⟨24, 18, 14, 12, 10⟩
  else
    let body := pickBody fc
    let ss := sortDesc (fc.map Prod.fst)
    let r1 := assignLevel body ss
    let r2 := assignLevel r1.1 r1.2
    let r3 := assignLevel r2.1 r2.2
    let r4 := assignLevel r3.1 r3.2
    ⟨r1.1, r2.1, r3.1, r4.1, body⟩

/-! ## Outline extractor: `extract_outline` -/

/-- `str.isnumeric()` (model): nonempty and every character numeric. -/
def isNumericStr (t : String) : Bool :=
  !t.isEmpty && t.data.all Char.isDigit

/-- `any(c.isalpha() for c in text)` (model). -/
def hasAlpha (t : String) : Bool :=
  t.data.any Char.isAlpha

/-- The merged line text of lines 102 and 123:
`"".join(s["text"] for s in l["spans"]).strip()`. -/
def mergedText (ln : Line) : String :=
  pyStrip (String.join (ln.spans.map Span.text))

/-- `is_bold = font_flags & 2**4 > 0` (line 133; in Python `&` binds
tighter than `>`). -/
def isBoldSpan (s : Span) : Bool :=
  decide (0 < s.flags &&& 2 ^ 4)

/-- Per-line heading classification, lines 119-142 of the source: skip a
line with no spans; merge the span texts; take size and flags from the
first span; reject short / numeric / non-alphabetic text; then the
threshold cascade with the bold-or-larger-than-body guard on H4.
Returns the level string together with the merged text. -/
def lineLevel (prof : StyleProfile) (ln : Line) : Option (String × String) :=
  match ln.spans with
  | [] => none
  | s0 :: _ =>
    let text := mergedText ln
    let font_size := pyRound s0.size
    let is_bold := isBoldSpan s0
    if text.length < 3 || isNumericStr text || !hasAlpha text then none
    else if font_size ≥ prof.H1 then some ("H1", text)
    else if font_size ≥ prof.H2 then some ("H2", text)
    else if font_size ≥ prof.H3 then some ("H3", text)
    else if font_size ≥ prof.H4 ∧ (font_size > prof.body ∨ is_bold) then
      some ("H4", text)
    else none

/-- One outline entry `{level, text, page}` (0-indexed page). -/
structure HeadingEntry where
  level : String
  text : String
  page : Nat
deriving DecidableEq, Repr

/-- Line 146's append guard:
`not outline or (outline[-1]["text"] != text and outline[-1]["page"] != page_num)`. -/
def shouldAppend (outline : List HeadingEntry) (text : String) (page : Nat) :
    Bool :=
  match outline.getLast? with
  | none => true
  | some e => e.text != text && e.page != page

/-- Processing of one line inside the page loop (lines 118-151): classify,
then append unless the guard rejects. -/
def stepLine (prof : StyleProfile) (page : Nat) (outline : List HeadingEntry)
    (ln : Line) : List HeadingEntry :=
  match lineLevel prof ln with
  | none => outline
  | some lt =>
    if shouldAppend outline lt.2 page then outline ++ [⟨lt.1, lt.2, page⟩]
    else outline

/-- All lines of one page, folded through `stepLine`. -/
def processPage (prof : StyleProfile) (pageNum : Nat)
    (outline : List HeadingEntry) (p : Page) : List HeadingEntry :=
  (pageLines p).foldl (stepLine prof pageNum) outline

/-- `for page_num, page in enumerate(doc)` (line 114): walk the pages with
their 0-indexed page numbers. -/
def outlinePages (prof : StyleProfile) : Nat → List Page →
    List HeadingEntry → List HeadingEntry
  | _, [], acc => acc
  | i, p :: ps, acc => outlinePages prof (i + 1) ps (processPage prof i acc p)

/-- The whole outline of a document. -/
def buildOutline (prof : StyleProfile) (d : Doc) : List HeadingEntry :=
  outlinePages prof 0 d.pages []

/-- The first-page title scan, step 1 (lines 91-96): the maximum raw span
size on page 0, starting from 0. -/
def maxFontSize (p : Page) : ℚ :=
  (pageSpans p).foldl (fun m s => if s.size > m then s.size else m) 0

/-- The first-page title scan, step 2 (lines 99-107): collect the merged
text of every line whose spans are nonempty and whose first span's rounded
size is at least `max_font_size - 1` (written with the 1 moved to the
other side of the comparison, which is equivalent over ℚ), and join the
parts with spaces. -/
def titleScan (p : Page) : String :=
  let m := maxFontSize p
  let parts :=
    ((pageLines p).filter fun l =>
        match l.spans with
        | [] => false
        | s0 :: _ => decide (m ≤ ((pyRound s0.size + 1 : ℤ) : ℚ))).map mergedText
  String.intercalate " " parts

/-- `os.path.basename` (model, posix flavour): the part after the last
slash. -/
def basename (path : String) : String :=
  String.mk (path.data.reverse.takeWhile (fun c => c != '/')).reverse

/-- Title resolution, lines 76-110: metadata title if truthy; overwrite by
the page-0 scan when the title is falsy or shorter than 5 characters; fall
back to the file's basename when still falsy. A document is assumed to
have at least one page (`doc[0]` would raise otherwise). -/
def resolveTitle (d : Doc) (bn : String) : String :=
  let t0 := d.metaTitle
  let t1 := if t0 = "" ∨ t0.length < 5 then titleScan (d.pages.headD ⟨[]⟩)
            else t0
  if t1 = "" then bn else t1

/-- `{"title": ..., "outline": [...]}`. -/
structure OutlineResult where
  title : String
  outline : List HeadingEntry
deriving DecidableEq, Repr

/-- `extract_outline` on a successfully opened document (lines 65-156). -/
def extractDoc (d : Doc) (path : String) : OutlineResult :=
  let prof := get_font_styles d
  { title := resolveTitle d (basename path), outline := buildOutline prof d }

/-- `extract_outline` including the `fitz.open` failure path (lines 59-63):
`none` as input models a document that cannot be opened/decoded, and the
function then returns the null result `None`. -/
def extract_outline (od : Option Doc) (path : String) : Option OutlineResult :=
  match od with
  | none => none
  | some d => some (extractDoc d path)

/-! ## Per-file driver logic of `main` (lines 175-186) -/

/-- `title.replace("RFP:", "")`: remove every occurrence of the pattern,
scanning left to right without overlap, exactly as Python's `str.replace`
with an empty replacement does. -/
def removeRFP : List Char → List Char
  | 'R' :: 'F' :: 'P' :: ':' :: rest => removeRFP rest
  | c :: rest => c :: removeRFP rest
  | [] => []

/-- Python's substring test `pat in s`, on character lists: some suffix of
the list starts with the pattern. -/
def hasSubList (pat : List Char) : List Char → Bool
  | [] => pat.isEmpty
  | c :: rest => pat.isPrefixOf (c :: rest) || hasSubList pat rest

/-- `"request for proposal" in title.lower()` (model). -/
def mentionsRFP (t : String) : Bool :=
  hasSubList "request for proposal".data (pyLower t).data

/-- The title cleanup of lines 179-180: when the lowercased title contains
"request for proposal", remove every "RFP:" occurrence and strip. -/
def cleanTitle (t : String) : String :=
  if mentionsRFP t then pyStrip (String.mk (removeRFP t.data)) else t

/-- The per-file behaviour of `main` (lines 175-186): extract; when the
result is non-null, clean the title and write it out. `none` models "no
output file is produced for this input". -/
def processFile (od : Option Doc) (path : String) : Option OutlineResult :=
  match extract_outline od path with
  | none => none
  | some r => some { r with title := cleanTitle r.title }

/-! ## Spec-side definitions (for refinement comparisons)

Each of the following is written from the spec's words, to be compared
with the definitions above, which were translated from the source. -/

/-- Histogram lookup: the count stored for a key, 0 if the key is absent
(the first matching entry, as in a dict with distinct keys). -/
def histLookup : List (Int × Nat) → Int → Nat
  | [], _ => 0
  | p :: ps, k => if p.1 == k then p.2 else histLookup ps k

/-- The heading rule as the spec words it: reject when the merged text is
shorter than 3 characters, purely numeric, or without any alphabetic
character; otherwise compare the size against the thresholds most specific
first, with the bold-or-above-body guard on H4. -/
def headingRuleSpec (prof : StyleProfile) (text : String) (size : Int)
    (bold : Bool) : Option String :=
  if text.length < 3 ∨ isNumericStr text = true ∨ hasAlpha text = false then
    none
  else if prof.H1 ≤ size then some "H1"
  else if prof.H2 ≤ size then some "H2"
  else if prof.H3 ≤ size then some "H3"
  else if prof.H4 ≤ size ∧ (prof.body < size ∨ bold = true) then some "H4"
  else none

/-- The title-resolution chain as the spec words it: the metadata title
when present and at least 5 characters long; otherwise the first-page
scan; otherwise the file's base name. -/
def titleRuleSpec (metaT scan bn : String) : String :=
  if metaT ≠ "" ∧ 5 ≤ metaT.length then metaT
  else if scan ≠ "" then scan
  else bn

/-- The title cleanup as the claim words it: when the lowercased title
contains "request for proposal", strip one literal "RFP:" PREFIX token
(leaving interior occurrences alone) and trim; otherwise leave the title
unchanged. -/
def titleCleanPrefixOnly (t : String) : String :=
  if mentionsRFP t then
    pyStrip (if "RFP:".data.isPrefixOf t.data then String.mk (t.data.drop 4)
             else t)
  else t

/-! ## Concrete example documents -/

/-- A line made of a single span. -/
def oneSpanLine (t : String) (sz : ℚ) (fl : Nat) : Line :=
  ⟨[⟨t, sz, fl⟩]⟩

/-- A page made of a single text block. -/
def onePage (ls : List Line) : Page :=
  ⟨[⟨0, ls⟩]⟩

/-- A long body-text line at size 10 (40 characters, so size 10 always
dominates the histogram of the example documents). -/
def bodyLine : Line :=
  oneSpanLine "aaaaaaaaaaaaaaaaaaaaaaaaaaaaaaaaaaaaaaaa" 10 0

/-- A document with five distinct font sizes (30, 20, 16, 12, 10) whose
modal size is 10. -/
def fiveSizesDoc : Doc :=
  ⟨[onePage [oneSpanLine "HeadingOne" 30 0, oneSpanLine "SubHead" 20 0,
             oneSpanLine "SubSub" 16 0, oneSpanLine "Small" 12 0,
             bodyLine]], ""⟩

/-- Two consecutive pages, each with the identical heading-sized line
"Confidentiality Notice" plus body text. -/
def repeatedHeadingDoc : Doc :=
  ⟨[onePage [oneSpanLine "Confidentiality Notice" 30 0, bodyLine],
    onePage [oneSpanLine "Confidentiality Notice" 30 0, bodyLine]], ""⟩

/-- A document whose only span of size above 6 is purely numeric and whose
only alphabetic span has font size 5. -/
def nonAlphaSpanDoc : Doc :=
  ⟨[onePage [oneSpanLine "1234567" 12 0, oneSpanLine "abcdefgh" 5 0]], ""⟩

/-- One heading-sized line over body text: the spec's Scenario B. -/
def chapterDoc : Doc :=
  ⟨[onePage [oneSpanLine "CHAPTER ONE" 30 0, bodyLine]], ""⟩

/-- A single empty page and no metadata title: a degenerate document with
zero extractable text. -/
def emptyPageDoc : Doc :=
  ⟨[⟨[]⟩], ""⟩

/-- A metadata title containing "request for proposal" with an interior
(non-prefix) "RFP:" token. -/
def rfpDoc : Doc :=
  ⟨[⟨[]⟩], "Request for Proposal - see RFP: appendix"⟩

/-! ## Theorems -/

/-- C2: the claim says a classified line is dropped only when its text AND
its page both match the last appended entry, so the identical
heading-sized line on the second page (different page number) should be
retained. The code keeps a line only when text AND page BOTH differ, so
the second occurrence is dropped: the outline of `repeatedHeadingDoc` has
a single entry, not two. -/
theorem repeated_heading_on_next_page_dropped :
    lineLevel (get_font_styles repeatedHeadingDoc)
        (oneSpanLine "Confidentiality Notice" 30 0) =
      some ("H1", "Confidentiality Notice") ∧
    (extractDoc repeatedHeadingDoc "f.pdf").outline =
      [⟨"H1", "Confidentiality Notice", 0⟩] ∧
    (extractDoc repeatedHeadingDoc "f.pdf").outline.length ≠ 2 := by
  refine ⟨by decide, by decide, by decide⟩

/-- C4: the histogram filter is on rounded font size (`> 6`), not on the
span's text: the purely numeric 7-character span at size 12 contributes,
while the alphabetic 8-character span at size 5 does not — contradicting
"exactly the alphabetic, non-trivial spans contribute". -/
theorem histogram_counts_non_alphabetic_spans :
    hasAlpha "1234567" = false ∧ hasAlpha "abcdefgh" = true ∧
    font_counts nonAlphaSpanDoc = [(12, 7)] ∧
    histLookup (font_counts nonAlphaSpanDoc) 5 = 0 := by
  refine ⟨by decide, by decide, by decide, by decide⟩

/-- C9: the cleanup of `main` removes every occurrence of "RFP:" (Python's
`str.replace`), not only a prefix token: on a title with an interior
"RFP:", the produced title differs from the claim's prefix-only reading. -/
theorem rfp_cleanup_not_prefix_only :
    processFile (some rfpDoc) "x.pdf" =
      some ⟨"Request for Proposal - see  appendix", []⟩ ∧
    titleCleanPrefixOnly (extractDoc rfpDoc "x.pdf").title =
      "Request for Proposal - see RFP: appendix" ∧
    ("Request for Proposal - see  appendix" : String) ≠
      "Request for Proposal - see RFP: appendix" := by
  refine ⟨by decide, by decide, by decide⟩

/-- C2 (amended): a classified heading line is DROPPED exactly when the
outline is nonempty and its merged text equals the last appended entry's
text OR its page equals the last appended entry's page; it is appended
(at the end) only when both differ, or the outline is still empty. -/
theorem duplicate_drop_rule (prof : StyleProfile) (i : Nat)
    (outline : List HeadingEntry) (ln : Line) (lvl t : String)
    (h : lineLevel prof ln = some (lvl, t)) :
    (stepLine prof i outline ln = outline ∨
      stepLine prof i outline ln = outline ++ [⟨lvl, t, i⟩]) ∧
    (stepLine prof i outline ln = outline ↔
      ∃ e, outline.getLast? = some e ∧ (e.text = t ∨ e.page = i)) := by
  have hs : stepLine prof i outline ln =
      if shouldAppend outline t i then outline ++ [⟨lvl, t, i⟩] else outline := by
    simp only [stepLine, h]
  by_cases hap : shouldAppend outline t i = true
  · rw [hs, if_pos hap]
    refine ⟨Or.inr rfl, ?_, ?_⟩
    · intro heq
      exact absurd (congrArg List.length heq) (by simp)
    · rintro ⟨e, he, hor⟩
      unfold shouldAppend at hap
      rw [he] at hap
      simp only [Bool.and_eq_true, bne_iff_ne] at hap
      rcases hor with h1 | h1
      · exact absurd h1 hap.1
      · exact absurd h1 hap.2
  · rw [hs, if_neg hap]
    refine ⟨Or.inl rfl, iff_of_true rfl ?_⟩
    unfold shouldAppend at hap
    cases hgl : outline.getLast? with
    | none => rw [hgl] at hap; simp at hap
    | some e =>
      rw [hgl] at hap
      refine ⟨e, rfl, ?_⟩
      simp only [Bool.and_eq_true, bne_iff_ne, not_and_or, not_not] at hap
      exact hap

/-- C2 (amended), witness: with the fallback profile, the line "Intro" at
size 30 is classified H1, and is dropped because the last entry of the
given outline already carries the text "Intro" (on a different page). -/
theorem duplicate_drop_rule_witness :
    (stepLine ⟨24, 18, 14, 12, 10⟩ 1 [⟨"H1", "Intro", 0⟩]
        (oneSpanLine "Intro" 30 0) = [⟨"H1", "Intro", 0⟩] ∨
      stepLine ⟨24, 18, 14, 12, 10⟩ 1 [⟨"H1", "Intro", 0⟩]
        (oneSpanLine "Intro" 30 0) = [⟨"H1", "Intro", 0⟩] ++ [⟨"H1", "Intro", 1⟩]) ∧
    (stepLine ⟨24, 18, 14, 12, 10⟩ 1 [⟨"H1", "Intro", 0⟩]
        (oneSpanLine "Intro" 30 0) = [⟨"H1", "Intro", 0⟩] ↔
      ∃ e, ([⟨"H1", "Intro", 0⟩] : List HeadingEntry).getLast? = some e ∧
        (e.text = "Intro" ∨ e.page = 1)) :=
  duplicate_drop_rule ⟨24, 18, 14, 12, 10⟩ 1 [⟨"H1", "Intro", 0⟩]
    (oneSpanLine "Intro" 30 0) "H1" "Intro" (by decide)

/-- C3: for every line with at least one span, the per-line heading
decision of the code equals the spec's rule: reject short, purely numeric
or non-alphabetic merged text, otherwise compare the first span's rounded
size against the thresholds H1..H4 in order, H4 additionally requiring
above-body size or bold. -/
theorem heading_decision_matches_spec (prof : StyleProfile) (ln : Line)
    (s0 : Span) (rest : List Span) (h : ln.spans = s0 :: rest) :
    (lineLevel prof ln).map Prod.fst =
      headingRuleSpec prof (mergedText ln) (pyRound s0.size) (isBoldSpan s0) := by
  obtain ⟨spans⟩ := ln
  simp only at h
  subst h
  simp only [lineLevel, headingRuleSpec]
  have hcond : ((decide ((mergedText ⟨s0 :: rest⟩).length < 3) ||
      isNumericStr (mergedText ⟨s0 :: rest⟩) ||
      !hasAlpha (mergedText ⟨s0 :: rest⟩)) = true) ↔
      ((mergedText ⟨s0 :: rest⟩).length < 3 ∨
        isNumericStr (mergedText ⟨s0 :: rest⟩) = true ∨
        hasAlpha (mergedText ⟨s0 :: rest⟩) = false) := by
    simp [Bool.or_eq_true, decide_eq_true_iff, Bool.not_eq_true']
    tauto
  by_cases hrej : (mergedText ⟨s0 :: rest⟩).length < 3 ∨
      isNumericStr (mergedText ⟨s0 :: rest⟩) = true ∨
      hasAlpha (mergedText ⟨s0 :: rest⟩) = false
  · rw [if_pos (hcond.mpr hrej), if_pos hrej]
    rfl
  · rw [if_neg (fun hh => hrej (hcond.mp hh)), if_neg hrej]
    split_ifs <;> rfl

/-- C3, witness: a single-span line "CHAPTER ONE" at size 30 with the
fallback profile. -/
theorem heading_decision_matches_spec_witness :
    (lineLevel ⟨24, 18, 14, 12, 10⟩ (oneSpanLine "CHAPTER ONE" 30 0)).map
        Prod.fst =
      headingRuleSpec ⟨24, 18, 14, 12, 10⟩
        (mergedText (oneSpanLine "CHAPTER ONE" 30 0)) (pyRound 30)
        (isBoldSpan ⟨"CHAPTER ONE", 30, 0⟩) :=
  heading_decision_matches_spec ⟨24, 18, 14, 12, 10⟩
    (oneSpanLine "CHAPTER ONE" 30 0) ⟨"CHAPTER ONE", 30, 0⟩ [] rfl

/-- C5: the resolved title equals the spec's chain: the metadata title when
it is present (nonempty) and at least 5 characters long — independently of
the page content —, otherwise the first-page largest-font scan, and the
file's base name when the scan yields the empty string. -/
theorem title_resolution_matches_spec (d : Doc) (bn : String) :
    resolveTitle d bn =
      titleRuleSpec d.metaTitle (titleScan (d.pages.headD ⟨[]⟩)) bn := by
  simp only [resolveTitle, titleRuleSpec]
  by_cases h1 : d.metaTitle = "" ∨ d.metaTitle.length < 5
  · have h2 : ¬(d.metaTitle ≠ "" ∧ 5 ≤ d.metaTitle.length) := by
      rintro ⟨ha, hb⟩
      rcases h1 with h | h
      · exact ha h
      · omega
    rw [if_pos h1, if_neg h2, ite_not]
  · push_neg at h1
    obtain ⟨ha, hb⟩ := h1
    have h3 : ¬(d.metaTitle = "" ∨ d.metaTitle.length < 5) := by
      push_neg
      exact ⟨ha, hb⟩
    rw [if_neg h3, if_pos (And.intro ha (by omega)), if_neg ha]

/-- C6: a document that cannot be opened yields the null extraction result,
and the driver produces an output exactly when extraction returns a
non-null result — so nothing is produced for an unopenable file. -/
theorem decode_failure_skips_output (path : String) (od : Option Doc) :
    extract_outline none path = none ∧ processFile none path = none ∧
    ((processFile od path).isSome ↔ (extract_outline od path).isSome) := by
  refine ⟨rfl, rfl, ?_⟩
  cases od <;> simp [processFile, extract_outline]

/-- C9 (amended): when extraction succeeds, the written result keeps the
outline and post-processes the title as follows: when its lowercased form
contains "request for proposal", EVERY occurrence of "RFP:" is removed
(not only a prefix token) and the result is stripped; otherwise the title
is unchanged. -/
theorem rfp_cleanup_replaces_all (od : Option Doc) (path : String)
    (r : OutlineResult) (h : extract_outline od path = some r) :
    processFile od path =
      some ⟨if mentionsRFP r.title then pyStrip (String.mk (removeRFP r.title.data))
            else r.title, r.outline⟩ := by
  simp only [processFile, h, cleanTitle]

/-- C9 (amended), witness: the RFP document's metadata title flows through
the cleanup. -/
theorem rfp_cleanup_replaces_all_witness :
    processFile (some rfpDoc) "x.pdf" =
      some ⟨if mentionsRFP "Request for Proposal - see RFP: appendix" then
              pyStrip (String.mk
                (removeRFP "Request for Proposal - see RFP: appendix".data))
            else "Request for Proposal - see RFP: appendix", []⟩ :=
  rfp_cleanup_replaces_all (some rfpDoc) "x.pdf"
    ⟨"Request for Proposal - see RFP: appendix", []⟩ (by decide)

/-- The advanced cursor is a suffix of the original cursor. -/
theorem advanceCur_suffix (prev : Int) (cur : List Int) :
    advanceCur prev cur <:+ cur := by
  induction cur with
  | nil => exact List.suffix_refl _
  | cons x xs ih =>
    simp only [advanceCur]
    split_ifs with h
    · exact ih.trans (List.suffix_cons x xs)
    · exact List.suffix_refl _

/-- When the advanced cursor is nonempty, the `while` loop stopped because
its head exceeds `prev`. -/
theorem advanceCur_head_gt (prev : Int) (cur : List Int) (x : Int)
    (xs : List Int) (h : advanceCur prev cur = x :: xs) : prev < x := by
  induction cur with
  | nil => simp [advanceCur] at h
  | cons y ys ih =>
    simp only [advanceCur] at h
    split_ifs at h with hy
    · exact ih h
    · injection h with h1 _
      omega

/-- When every candidate is at most `prev`, the `while` loop consumes the
whole cursor. -/
theorem advanceCur_nil_of_all (prev : Int) (cur : List Int)
    (h : ∀ x ∈ cur, x ≤ prev) : advanceCur prev cur = [] := by
  induction cur with
  | nil => rfl
  | cons y ys ih =>
    simp only [advanceCur]
    rw [if_pos (h y (by simp))]
    exact ih fun x hx => h x (by simp [hx])

/-- Every threshold assigned by one loop iteration is strictly greater
than the previously assigned one. -/
theorem assignLevel_gt (prev : Int) (cur : List Int) :
    prev < (assignLevel prev cur).1 := by
  unfold assignLevel
  cases hac : advanceCur prev cur with
  | nil => simp
  | cons x xs => simpa using advanceCur_head_gt prev cur x xs hac

/-- When every candidate is at most `prev`, the iteration falls back to
`prev + 1` with an exhausted cursor. -/
theorem assignLevel_exhausted (prev : Int) (cur : List Int)
    (h : ∀ x ∈ cur, x ≤ prev) : assignLevel prev cur = (prev + 1, []) := by
  unfold assignLevel
  rw [advanceCur_nil_of_all prev cur h]

/-- On a descending cursor, every remaining candidate after one iteration
is at most the value just assigned. -/
theorem assignLevel_rest_le (prev : Int) (cur : List Int)
    (hs : cur.Sorted fun a b => b ≤ a) :
    ∀ y ∈ (assignLevel prev cur).2, y ≤ (assignLevel prev cur).1 := by
  unfold assignLevel
  cases hac : advanceCur prev cur with
  | nil => simp
  | cons x xs =>
    have hsuf : (x :: xs) <:+ cur := hac ▸ advanceCur_suffix prev cur
    have hsorted : (x :: xs).Sorted fun a b => b ≤ a :=
      List.Pairwise.sublist hsuf.sublist hs
    intro y hy
    simp only at hy ⊢
    exact List.rel_of_sorted_cons hsorted y hy

/-- The output of `sorted(keys, reverse=True)` is descending. -/
theorem sortDesc_sorted (l : List Int) :
    (sortDesc l).Sorted fun a b => b ≤ a := by
  haveI : IsTotal ℤ fun a b : ℤ => b ≤ a := ⟨fun a b => le_total b a⟩
  haveI : IsTrans ℤ fun a b : ℤ => b ≤ a := ⟨fun _ _ _ hab hbc => le_trans hbc hab⟩
  exact List.sorted_insertionSort _ l

/-- C1: the claim (and spec §8) require H1 > H2 > H3 > H4 for every
document. The code does the opposite: on every document whose histogram
is nonempty, the cursor comparison `sorted_sizes[idx] <= prev` skips the
whole remaining DESCENDING candidate list once H1 is assigned, so every
later level falls back to `previous + 1`: the thresholds strictly
INCREASE (H2 = H1 + 1, H3 = H2 + 1, H4 = H3 + 1, with H1 > body). Only
the empty-histogram fallback profile 24/18/14/12 is descending. -/
theorem profiler_thresholds_ascending :
    (∀ d : Doc,
      get_font_styles d = ⟨24, 18, 14, 12, 10⟩ ∨
      ((get_font_styles d).body < (get_font_styles d).H1 ∧
        (get_font_styles d).H2 = (get_font_styles d).H1 + 1 ∧
        (get_font_styles d).H3 = (get_font_styles d).H2 + 1 ∧
        (get_font_styles d).H4 = (get_font_styles d).H3 + 1)) ∧
    get_font_styles fiveSizesDoc = ⟨30, 31, 32, 33, 10⟩ ∧
    ¬ (get_font_styles fiveSizesDoc).H1 > (get_font_styles fiveSizesDoc).H2 := by
  refine ⟨fun d => ?_, by decide, by decide⟩
  unfold get_font_styles
  by_cases he : (font_counts d).isEmpty
  · rw [if_pos he]
    exact Or.inl rfl
  · rw [if_neg he]
    right
    simp only
    set body := pickBody (font_counts d) with hbody
    set ss := sortDesc ((font_counts d).map Prod.fst) with hss
    have hsort : ss.Sorted fun a b => b ≤ a := sortDesc_sorted _
    have h1gt : body < (assignLevel body ss).1 := assignLevel_gt body ss
    have hrest : ∀ y ∈ (assignLevel body ss).2, y ≤ (assignLevel body ss).1 :=
      assignLevel_rest_le body ss hsort
    have hr2 : assignLevel (assignLevel body ss).1 (assignLevel body ss).2 =
        ((assignLevel body ss).1 + 1, []) := assignLevel_exhausted _ _ hrest
    rw [hr2]
    refine ⟨h1gt, rfl, ?_, ?_⟩ <;> rfl

/-- A classified line always receives one of the four level names. -/
theorem lineLevel_levels (prof : StyleProfile) (ln : Line) (lvl t : String)
    (h : lineLevel prof ln = some (lvl, t)) :
    lvl = "H1" ∨ lvl = "H2" ∨ lvl = "H3" ∨ lvl = "H4" := by
  unfold lineLevel at h
  split at h
  · exact absurd h (by simp)
  · dsimp only at h
    split_ifs at h <;>
      simp only [Option.some.injEq, Prod.mk.injEq] at h <;> tauto

/-- Processing one line preserves the page invariants: known level names,
pages bounded by the current page number, and strictly increasing pages. -/
theorem stepLine_inv (prof : StyleProfile) (i : Nat)
    (acc : List HeadingEntry) (ln : Line)
    (hlev : ∀ e ∈ acc,
      e.level = "H1" ∨ e.level = "H2" ∨ e.level = "H3" ∨ e.level = "H4")
    (hpage : ∀ e ∈ acc, e.page ≤ i)
    (hchain : List.Chain' (fun a b => a < b) (acc.map HeadingEntry.page)) :
    (∀ e ∈ stepLine prof i acc ln,
      e.level = "H1" ∨ e.level = "H2" ∨ e.level = "H3" ∨ e.level = "H4") ∧
    (∀ e ∈ stepLine prof i acc ln, e.page ≤ i) ∧
    List.Chain' (fun a b => a < b)
      ((stepLine prof i acc ln).map HeadingEntry.page) := by
  unfold stepLine
  split
  · exact ⟨hlev, hpage, hchain⟩
  next lt heq =>
    split_ifs with hap
    · refine ⟨?_, ?_, ?_⟩
      · intro e he
        rcases List.mem_append.mp he with he | he
        · exact hlev e he
        · simp only [List.mem_singleton] at he
          subst he
          exact lineLevel_levels prof ln lt.1 lt.2 heq
      · intro e he
        rcases List.mem_append.mp he with he | he
        · exact hpage e he
        · simp only [List.mem_singleton] at he
          subst he
          exact le_refl i
      · rw [List.map_append]
        refine List.Chain'.append hchain (by simp) ?_
        intro x hx y hy
        simp only [List.map_cons, List.map_nil, List.head?_cons,
          Option.mem_def, Option.some.injEq] at hy
        subst hy
        rw [List.getLast?_map] at hx
        unfold shouldAppend at hap
        cases hgl : acc.getLast? with
        | none => rw [hgl] at hx; exact absurd hx (by simp)
        | some e0 =>
          rw [hgl] at hx hap
          simp only [Option.map_some', Option.mem_def,
            Option.some.injEq] at hx
          subst hx
          simp only [Bool.and_eq_true, bne_iff_ne] at hap
          have hmem : e0 ∈ acc := by
            obtain ⟨hne, heq0⟩ :=
              List.mem_getLast?_eq_getLast (Option.mem_def.mpr hgl)
            exact heq0 ▸ List.getLast_mem hne
          have := hpage e0 hmem
          omega
    · exact ⟨hlev, hpage, hchain⟩

/-- Folding a whole list of lines at page `i` preserves the same page
invariants. -/
theorem foldLines_inv (prof : StyleProfile) (i : Nat) (lns : List Line) :
    ∀ acc : List HeadingEntry,
    (∀ e ∈ acc,
      e.level = "H1" ∨ e.level = "H2" ∨ e.level = "H3" ∨ e.level = "H4") →
    (∀ e ∈ acc, e.page ≤ i) →
    List.Chain' (fun a b => a < b) (acc.map HeadingEntry.page) →
    (∀ e ∈ lns.foldl (stepLine prof i) acc,
      e.level = "H1" ∨ e.level = "H2" ∨ e.level = "H3" ∨ e.level = "H4") ∧
    (∀ e ∈ lns.foldl (stepLine prof i) acc, e.page ≤ i) ∧
    List.Chain' (fun a b => a < b)
      ((lns.foldl (stepLine prof i) acc).map HeadingEntry.page) := by
  induction lns with
  | nil => exact fun acc h1 h2 h3 => ⟨h1, h2, h3⟩
  | cons ln lns ih =>
    intro acc h1 h2 h3
    have h := stepLine_inv prof i acc ln h1 h2 h3
    exact ih (stepLine prof i acc ln) h.1 h.2.1 h.2.2

/-- Walking the pages from index `i` preserves the invariants, with pages
of the produced entries bounded by the final page index. -/
theorem outlinePages_inv (prof : StyleProfile) (ps : List Page) :
    ∀ (i : Nat) (acc : List HeadingEntry),
    (∀ e ∈ acc,
      e.level = "H1" ∨ e.level = "H2" ∨ e.level = "H3" ∨ e.level = "H4") →
    (∀ e ∈ acc, e.page < i) →
    List.Chain' (fun a b => a < b) (acc.map HeadingEntry.page) →
    (∀ e ∈ outlinePages prof i ps acc,
      e.level = "H1" ∨ e.level = "H2" ∨ e.level = "H3" ∨ e.level = "H4") ∧
    (∀ e ∈ outlinePages prof i ps acc, e.page < i + ps.length) ∧
    List.Chain' (fun a b => a < b)
      ((outlinePages prof i ps acc).map HeadingEntry.page) := by
  induction ps with
  | nil =>
    intro i acc h1 h2 h3
    exact ⟨h1, fun e he => lt_of_lt_of_le (h2 e he) (by omega), h3⟩
  | cons p ps ih =>
    intro i acc h1 h2 h3
    have hstep := foldLines_inv prof i (pageLines p) acc h1
      (fun e he => le_of_lt (h2 e he)) h3
    have hrec := ih (i + 1) _ hstep.1
      (fun e he => lt_of_le_of_lt (hstep.2.1 e he) (by omega)) hstep.2.2
    refine ⟨hrec.1, fun e he => ?_, hrec.2.2⟩
    have := hrec.2.1 e he
    simpa [Nat.add_assoc, Nat.add_comm 1 ps.length] using this

/-- C7: every entry of a produced outline carries one of the four level
names H1..H4 and a 0-indexed page number within the document's page
range. -/
theorem outline_entries_well_formed (d : Doc) (path : String)
    (e : HeadingEntry) (he : e ∈ (extractDoc d path).outline) :
    (e.level = "H1" ∨ e.level = "H2" ∨ e.level = "H3" ∨ e.level = "H4") ∧
    e.page < d.pages.length := by
  have h := outlinePages_inv (get_font_styles d) d.pages 0 []
    (by simp) (by simp) (by simp)
  have he' : e ∈ outlinePages (get_font_styles d) 0 d.pages [] := he
  exact ⟨h.1 e he', by simpa using h.2.1 e he'⟩

/-- C7, witness: the Scenario-B document produces the entry
H1 / "CHAPTER ONE" / page 0, which is well formed. -/
theorem outline_entries_well_formed_witness :
    (⟨"H1", "CHAPTER ONE", 0⟩ : HeadingEntry) ∈
      (extractDoc chapterDoc "c.pdf").outline ∧
    ((("H1" : String) = "H1" ∨ ("H1" : String) = "H2" ∨
      ("H1" : String) = "H3" ∨ ("H1" : String) = "H4") ∧
      0 < chapterDoc.pages.length) :=
  ⟨by decide, outline_entries_well_formed chapterDoc "c.pdf"
    ⟨"H1", "CHAPTER ONE", 0⟩ (by decide)⟩

/-- C10: the page numbers of consecutive outline entries strictly
increase: once an entry is appended for a page, no second entry can be
appended for the same page (its page would equal the last entry's page),
so at most one heading is emitted per page, in page order. -/
theorem outline_pages_strictly_increasing (d : Doc) (path : String) :
    List.Chain' (fun a b => a < b)
      ((extractDoc d path).outline.map HeadingEntry.page) := by
  have h := outlinePages_inv (get_font_styles d) d.pages 0 []
    (by simp) (by simp) (by simp)
  exact h.2.2

/-- A flatMap over a list whose images are all empty is empty. -/
theorem flatMap_eq_nil_of_all {α β : Type} (l : List α) (f : α → List β)
    (h : ∀ x ∈ l, f x = []) : l.flatMap f = [] := by
  induction l with
  | nil => rfl
  | cons x xs ih =>
    rw [List.flatMap_cons, h x (by simp), ih fun y hy => h y (by simp [hy])]
    rfl

/-- A page whose blocks all have no lines has no text lines. -/
theorem pageLines_eq_nil (p : Page) (h : ∀ b ∈ p.blocks, b.lines = []) :
    pageLines p = [] := by
  unfold pageLines
  exact flatMap_eq_nil_of_all _ _ fun b hb =>
    h b (List.mem_of_mem_filter hb)

/-- A document whose blocks all have no lines yields no sampled spans. -/
theorem sampleSpans_eq_nil (d : Doc)
    (h : ∀ p ∈ d.pages, ∀ b ∈ p.blocks, b.lines = []) :
    sampleSpans d = [] := by
  unfold sampleSpans
  refine flatMap_eq_nil_of_all _ _ fun p hp => ?_
  unfold pageSpans
  rw [pageLines_eq_nil p (h p (List.mem_of_mem_take hp))]
  rfl

/-- A page with no text lines produces the empty title scan. -/
theorem titleScan_eq_empty (p : Page) (h : pageLines p = []) :
    titleScan p = "" := by
  unfold titleScan
  rw [h]
  rfl

/-- Walking pages with no text lines leaves the outline untouched. -/
theorem outlinePages_eq_of_no_lines (prof : StyleProfile) (ps : List Page) :
    ∀ (i : Nat) (acc : List HeadingEntry), (∀ p ∈ ps, pageLines p = []) →
      outlinePages prof i ps acc = acc := by
  induction ps with
  | nil => intro i acc _; rfl
  | cons p ps ih =>
    intro i acc h
    show outlinePages prof (i + 1) ps (processPage prof i acc p) = acc
    have hp : processPage prof i acc p = acc := by
      unfold processPage
      rw [h p (by simp)]
      rfl
    rw [hp]
    exact ih (i + 1) acc fun q hq => h q (by simp [hq])

/-- C8: with no span at all the histogram is empty and the profiler
returns exactly the fixed fallback profile 24/18/14/12/10; a document
with at least one page, no metadata title and zero extractable text
yields the empty outline and the file's base name as title — a result,
not an error. -/
theorem degenerate_document_fallback (d : Doc) (path : String)
    (hne : d.pages ≠ []) (hmeta : d.metaTitle = "")
    (hempty : ∀ p ∈ d.pages, ∀ b ∈ p.blocks, b.lines = []) :
    get_font_styles d = ⟨24, 18, 14, 12, 10⟩ ∧
    extractDoc d path = ⟨basename path, []⟩ := by
  have hfc : font_counts d = [] := by
    unfold font_counts
    rw [sampleSpans_eq_nil d hempty]
    rfl
  have hprof : get_font_styles d = ⟨24, 18, 14, 12, 10⟩ := by
    unfold get_font_styles
    rw [hfc]
    rfl
  refine ⟨hprof, ?_⟩
  have houtline : buildOutline (get_font_styles d) d = [] := by
    unfold buildOutline
    exact outlinePages_eq_of_no_lines _ _ 0 [] fun p hp =>
      pageLines_eq_nil p (hempty p hp)
  have hscan : titleScan (d.pages.head?.getD ⟨[]⟩) = "" := by
    cases hps : d.pages with
    | nil => exact absurd hps hne
    | cons p ps =>
      exact titleScan_eq_empty p (pageLines_eq_nil p (hempty p (by simp [hps])))
  have htitle : resolveTitle d (basename path) = basename path := by
    simp [resolveTitle, hmeta, hscan]
  show OutlineResult.mk (resolveTitle d (basename path))
      (buildOutline (get_font_styles d) d) =
    OutlineResult.mk (basename path) []
  rw [htitle, houtline]

/-- C8, witness: a one-page document with no blocks. -/
theorem degenerate_document_fallback_witness :
    emptyPageDoc.pages ≠ [] ∧ emptyPageDoc.metaTitle = "" ∧
    (get_font_styles emptyPageDoc = ⟨24, 18, 14, 12, 10⟩ ∧
      extractDoc emptyPageDoc "input/e.pdf" = ⟨basename "input/e.pdf", []⟩) :=
  ⟨by decide, rfl,
    degenerate_document_fallback emptyPageDoc "input/e.pdf" (by decide) rfl
      (by decide)⟩

/-- Updating the counts of one key leaves other keys' lookups unchanged
and adds `n` to that key's lookup when the key is present. -/
theorem histLookup_update (h : List (Int × Nat)) (k : Int) (n : Nat)
    (q : Int) :
    histLookup (h.map fun p => if p.1 == k then (p.1, p.2 + n) else p) q =
      histLookup h q +
        if q = k ∧ (h.any fun p => p.1 == q) = true then n else 0 := by
  induction h with
  | nil => simp [histLookup]
  | cons p ps ih =>
    have hfst : ((if p.1 == k then (p.1, p.2 + n) else p).1 == q) =
        (p.1 == q) := by
      split <;> rfl
    simp only [List.map_cons, histLookup, hfst, List.any_cons]
    by_cases hpq : (p.1 == q) = true
    · have hq : p.1 = q := by simpa using hpq
      subst hq
      by_cases hqk : p.1 = k
      · subst hqk
        simp
      · have hk : (p.1 == k) = false := by simpa using hqk
        simp [hk, hqk]
    · have hpq' : (p.1 == q) = false := by simpa using hpq
      rw [if_neg hpq, if_neg hpq, ih]
      congr 1
      simp only [hpq', Bool.false_or]

/-- Appending a fresh key: lookups of present keys are unchanged; the new
key's lookup is its count when it was absent. -/
theorem histLookup_append_single (h : List (Int × Nat)) (k : Int) (n : Nat)
    (q : Int) :
    histLookup (h ++ [(k, n)]) q =
      if (h.any fun p => p.1 == q) = true then histLookup h q
      else if q = k then n else 0 := by
  induction h with
  | nil =>
    simp only [List.nil_append, List.any_nil]
    by_cases hqk : q = k
    · subst hqk
      simp [histLookup]
    · have hk : (k == q) = false := by
        simpa using fun hc : k = q => hqk hc.symm
      simp [histLookup, hk, hqk]
  | cons p ps ih =>
    simp only [List.cons_append, histLookup, List.any_cons]
    by_cases hpq : (p.1 == q) = true
    · simp [hpq]
    · have hpq' : (p.1 == q) = false := by simpa using hpq
      rw [if_neg hpq]
      simp only [List.append_eq]
      rw [ih, if_neg hpq]
      simp only [hpq', Bool.false_or]

/-- An absent key's lookup is 0. -/
theorem histLookup_eq_zero_of_absent (h : List (Int × Nat)) (q : Int)
    (hq : (h.any fun p => p.1 == q) = false) : histLookup h q = 0 := by
  induction h with
  | nil => rfl
  | cons p ps ih =>
    simp only [List.any_cons, Bool.or_eq_false_iff] at hq
    simp [histLookup, hq.1, ih hq.2]

/-- `font_counts[k] += n` adds `n` to key `k`'s lookup and leaves every
other key's lookup unchanged. -/
theorem histLookup_addCount (h : List (Int × Nat)) (k : Int) (n : Nat)
    (q : Int) :
    histLookup (addCount h k n) q =
      histLookup h q + if q = k then n else 0 := by
  unfold addCount
  by_cases hany : (h.any fun p => p.1 == k) = true
  · rw [if_pos hany, histLookup_update]
    by_cases hqk : q = k
    · subst hqk
      simp [hany]
    · simp [hqk]
  · rw [if_neg hany, histLookup_append_single]
    by_cases hq : (h.any fun p => p.1 == q) = true
    · have hne : ¬ q = k := fun he => hany (he ▸ hq)
      simp [hq, hne]
    · have hq' : (h.any fun p => p.1 == q) = false := by
        simp only [Bool.not_eq_true] at hq
        exact hq
      have h0 : histLookup h q = 0 := histLookup_eq_zero_of_absent h q hq'
      simp [hq, h0]

/-- Folding spans through `addSpan` accumulates, at each key, the total
character count of the spans with that rounded size, provided it exceeds
6. -/
theorem histLookup_foldl_addSpan (spans : List Span) :
    ∀ (h : List (Int × Nat)) (k : Int),
    histLookup (spans.foldl addSpan h) k =
      histLookup h k +
        (((spans.filter fun s =>
            decide (6 < pyRound s.size) && (pyRound s.size == k)).map
          fun s => s.text.length).sum) := by
  induction spans with
  | nil => simp
  | cons s ss ih =>
    intro h k
    rw [List.foldl_cons, ih]
    have haddSpan : addSpan h s =
        if pyRound s.size > 6 then addCount h (pyRound s.size) s.text.length
        else h := rfl
    by_cases h6 : pyRound s.size > 6
    · rw [haddSpan, if_pos h6, histLookup_addCount]
      by_cases hk : pyRound s.size = k
      · have h6' : 6 < k := hk ▸ h6
        rw [List.filter_cons_of_pos (by simp [h6', hk]), if_pos hk.symm]
        simp only [List.map_cons, List.sum_cons]
        omega
      · rw [List.filter_cons_of_neg (by simp [hk]),
          if_neg fun he => hk he.symm]
        omega
    · rw [haddSpan, if_neg h6,
        List.filter_cons_of_neg (by simp [h6])]

/-- C4 (amended): the histogram's count at key `k` is the total character
count of exactly the sampled spans whose ROUNDED FONT SIZE is greater
than 6 and rounds to `k` — the span's text content (alphabetic or not,
trivial or not) plays no role in the filter, only in the weight. -/
theorem histogram_lookup_spec (d : Doc) (k : Int) :
    histLookup (font_counts d) k =
      (((sampleSpans d).filter fun s =>
          decide (6 < pyRound s.size) && (pyRound s.size == k)).map
        fun s => s.text.length).sum := by
  unfold font_counts
  rw [histLookup_foldl_addSpan]
  simp [histLookup]

end PDFOutline

